import Mathlib

/- Verification development for the rolldown-deno-loader-plugin resolution core
   (src/mod.ts). The TypeScript code is shallowly embedded: the caches of the
   DenoLoaderPlugin class become association lists inside an explicit engine
   state, the async denoResolve method is split at its single suspension point
   into a synchronous start phase and a settlement phase, and the external
   collaborators (the deno subprocess, JSON.parse, the file reader) are passed
   in as explicit outcomes or function parameters. -/

namespace RolldownDenoLoader

/-- Media types reported by the external discovery tool (enum DenoMediaType). -/
inductive DenoMediaType where
  | JavaScript
  | Mjs
  | Cjs
  | JSX
  | TypeScript
  | Mts
  | Cts
  | Dts
  | Dmts
  | Dcts
  | TSX
  | Json
  | Wasm
  | TsBuildInfo
  | SourceMap
  | Unknown
deriving DecidableEq

/-- Coarse module kinds handed to the bundler (enum ModuleType). -/
inductive ModuleType where
  | Js
  | Jsx
  | Ts
  | Tsx
  | Json
  | Binary
  | Text
  | Empty
deriving DecidableEq

/-- One record of the modules array of a discovery report. The source code
duck-types these records, testing key presence with the in operator, so the
embedding keeps every field optional. The field npm_package mirrors the
literal key tested by cacheDenoInfo, which is npm_package even though the
TypeScript interface declares npmPackage. -/
structure ModuleInfo where
  specifier : Option String
  «local» : Option String
  mediaType : Option DenoMediaType
  npm_package : Option String
deriving DecidableEq

/-- The JSON report of the discovery service (interface DenoInfoJsonV1).
Object.entries iteration order of redirects is modelled by list order. -/
structure DenoInfoJsonV1 where
  redirects : List (String × String)
  modules : List ModuleInfo
deriving DecidableEq

/-- Terminal outcome of resolving one specifier (interface DenoResolveResult). -/
structure DenoResolveResult where
  localPath : Option String
  redirected : String
  moduleType : Option ModuleType
deriving DecidableEq

/-- JavaScript String.replace with a string pattern removes only the first
occurrence of the pattern; this is the list-level engine for it. -/
def removeFirstOcc (pat : List Char) : List Char → List Char
  | [] => []
  | c :: cs =>
    if (c :: cs).take pat.length = pat then (c :: cs).drop pat.length
    else c :: removeFirstOcc pat cs

/-- Embeds the expression s.replace("file://", "") used by cacheDenoInfo. -/
def stripFileScheme (s : String) : String :=
  String.mk (removeFirstOcc ("file://".data) s.data)

/-- Embeds JavaScript String.startsWith. -/
def strStartsWith (s pre : String) : Bool :=
  s.data.take pre.data.length == pre.data

/-- Lookup in a JavaScript Map, modelled as an association list. -/
def alistGet {β : Type} (k : String) : List (String × β) → Option β
  | [] => none
  | kv :: rest => if kv.1 = k then some kv.2 else alistGet k rest

/-- Map.set: replaces the value in place if the key is present, appends
otherwise (JavaScript Maps keep the original insertion position). -/
def alistSet {β : Type} (k : String) (v : β) : List (String × β) → List (String × β)
  | [] => [(k, v)]
  | kv :: rest => if kv.1 = k then (k, v) :: rest else kv :: alistSet k v rest

/-- Map.delete: removes the entry for the key. -/
def alistDelete {β : Type} (k : String) : List (String × β) → List (String × β)
  | [] => []
  | kv :: rest => if kv.1 = k then rest else kv :: alistDelete k rest

/-- The media-type table of DenoLoaderPlugin.mapMediaType. -/
def mapMediaType (media_type : DenoMediaType) : ModuleType :=
  match media_type with
  | .JavaScript => .Js
  | .Mjs => .Js
  | .Cjs => .Js
  | .JSX => .Jsx
  | .TypeScript => .Ts
  | .Mts => .Ts
  | .Cts => .Ts
  | .Dts => .Ts
  | .Dmts => .Ts
  | .Dcts => .Ts
  | .TSX => .Tsx
  | .Json => .Json
  | .Wasm => .Binary
  | .TsBuildInfo => .Text
  | .SourceMap => .Text
  | .Unknown => .Empty

/-- The specifier to resolution-result cache (field resolveDenoInfoCache). -/
abbrev Cache := List (String × DenoResolveResult)

/-- The guard of the loop body of cacheDenoInfo: a record qualifies when it
carries a specifier and a mediaType and no npm_package key; a qualifying
record yields the cache value built from its fields. -/
def recordEntry (details : ModuleInfo) : Option (String × DenoResolveResult) :=
  match details.specifier, details.mediaType, details.npm_package with
  | some sp, some mt, none =>
    some (sp, { localPath := details.«local»
                redirected := sp
                moduleType := some (mapMediaType mt) })
  | _, _, _ => none

/-- One iteration of the outer loop of cacheDenoInfo: store the entry under
the file-stripped specifier of the record, then walk the redirects and store
the same entry under every file-stripped redirect source whose target equals
the specifier of the record. -/
def projectModule (redirects : List (String × String)) (cache : Cache)
    (details : ModuleInfo) : Cache :=
  match recordEntry details with
  | none => cache
  | some (sp, result) =>
    let cache1 := alistSet (stripFileScheme sp) result cache
    redirects.foldl
      (fun c kv => if kv.2 = sp then alistSet (stripFileScheme kv.1) result c else c)
      cache1

/-- DenoLoaderPlugin.cacheDenoInfo: projects a discovery report into the cache. -/
def cacheDenoInfo (info : DenoInfoJsonV1) (cache : Cache) : Cache :=
  info.modules.foldl (projectModule info.redirects) cache

/-- Failure of the denoInfo subprocess step: either the process invocation
itself rejected, or JSON.parse threw on the stdout text. -/
inductive DenoInfoError where
  | procFailure
  | parseFailure
deriving DecidableEq

/-- Errors surfaced by denoResolve: a failed discovery invocation, or the
message "Specifier not found in cache after processing". -/
inductive ResolveError where
  | discovery (e : DenoInfoError)
  | cacheConsistency
deriving DecidableEq

/-- Result of a completed deno subprocess (Deno.Command output). The code
destructures only stdout from it; the exit code field is never read. -/
structure CommandOutput where
  code : Int
  stdout : String
  stderr : String
deriving DecidableEq

/-- DenoLoaderPlugin.denoInfo as a function of the external effects: the
subprocess outcome and the JSON.parse primitive (a parameter, since it is an
external collaborator). The source awaits command.output, decodes stdout and
returns JSON.parse of it; nothing inspects the exit code. -/
def denoInfo (commandResult : Except Unit CommandOutput)
    (jsonParse : String → Except Unit DenoInfoJsonV1) :
    Except DenoInfoError DenoInfoJsonV1 :=
  match commandResult with
  | .error _ => .error .procFailure
  | .ok out =>
    match jsonParse out.stdout with
    | .error _ => .error .parseFailure
    | .ok info => .ok info

/-- Mutable state of one DenoLoaderPlugin instance, plus an instrumentation
log (denoInfoInvocations) that records each started discovery invocation,
newest first. Pending promises are identified by numeric ids drawn from
nextPromiseId. -/
structure EngineState where
  resolveDenoInfoCache : Cache
  resolvePromises : List (String × Nat)
  nextPromiseId : Nat
  denoInfoInvocations : List String
deriving DecidableEq

/-- Outcome of the synchronous prefix of denoResolve: an immediate cache hit,
joining an already pending promise, or starting a fresh computation (which
invokes the discovery subprocess). -/
inductive ResolveStart where
  | hit (r : DenoResolveResult)
  | joined (pid : Nat)
  | started (pid : Nat)
deriving DecidableEq

/-- The synchronous prefix of DenoLoaderPlugin.denoResolve: check the terminal
cache, then the in-flight map, and otherwise register a new in-flight promise
and launch the discovery invocation. No suspension point occurs inside this
prefix, so it is one atomic step of the cooperative scheduler. -/
def denoResolveStart (s : EngineState) (specifier : String) :
    ResolveStart × EngineState :=
  match alistGet specifier s.resolveDenoInfoCache with
  | some cachedResult => (.hit cachedResult, s)
  | none =>
    match alistGet specifier s.resolvePromises with
    | some pid => (.joined pid, s)
    | none =>
      (.started s.nextPromiseId,
        { s with
          resolvePromises := alistSet specifier s.nextPromiseId s.resolvePromises
          nextPromiseId := s.nextPromiseId + 1
          denoInfoInvocations := specifier :: s.denoInfoInvocations })

/-- The continuation of denoResolve after the awaited denoInfo settles with
outcome. On success the report is projected and the cache re-read under the
triggering specifier, throwing the cache-consistency error when absent; the
finally block deletes the in-flight entry on every path before the promise
settles. -/
def denoResolveSettle (s : EngineState) (specifier : String)
    (outcome : Except DenoInfoError DenoInfoJsonV1) :
    Except ResolveError DenoResolveResult × EngineState :=
  match outcome with
  | .error e =>
    (.error (.discovery e),
      { s with resolvePromises := alistDelete specifier s.resolvePromises })
  | .ok info =>
    let newCache := cacheDenoInfo info s.resolveDenoInfoCache
    match alistGet specifier newCache with
    | none =>
      (.error .cacheConsistency,
        { s with
          resolveDenoInfoCache := newCache
          resolvePromises := alistDelete specifier s.resolvePromises })
    | some cached =>
      (.ok cached,
        { s with
          resolveDenoInfoCache := newCache
          resolvePromises := alistDelete specifier s.resolvePromises })

/-- One full denoResolve call executed without interleaving: the start phase,
and, when a fresh computation was started, its settlement with the given
discovery outcome. A joined call cannot settle by itself, hence none. -/
def denoResolveSeq (s : EngineState) (specifier : String)
    (outcome : Except DenoInfoError DenoInfoJsonV1) :
    Option (Except ResolveError DenoResolveResult) × EngineState :=
  match denoResolveStart s specifier with
  | (.hit r, s1) => (some (.ok r), s1)
  | (.joined _, s1) => (none, s1)
  | (.started _, s1) =>
    let settled := denoResolveSettle s1 specifier outcome
    (some settled.1, settled.2)

/-- n concurrent callers entering denoResolve back to back, before any pending
discovery settles: the synchronous start phases run in sequence on the shared
state, which is exactly how the cooperative scheduler serialises them. -/
def denoResolveStartN : EngineState → String → Nat → List ResolveStart × EngineState
  | s, _, 0 => ([], s)
  | s, specifier, Nat.succ n =>
    let step := denoResolveStart s specifier
    let rest := denoResolveStartN step.2 specifier n
    (step.1 :: rest.1, rest.2)

/-- The value a caller finally observes: a cache hit is returned directly,
while joiners and the starter all await the same promise and therefore all
receive its unique settlement. -/
def deliver (settlement : Except ResolveError DenoResolveResult) :
    ResolveStart → Except ResolveError DenoResolveResult
  | .hit r => .ok r
  | .joined _ => settlement
  | .started _ => settlement

/-- Errors thrown by the load hook: the missing local path error (the thrown
message no local_path) or a failed file read. -/
inductive LoadError where
  | missingArtifact
  | readFailure
deriving DecidableEq

/-- Value returned by a successful load hook. -/
structure LoadResult where
  code : String
  moduleType : Option ModuleType
deriving DecidableEq

/-- The tail of DenoLoaderPlugin.load after denoResolve produced a result:
require a local path (the source tests JavaScript falsiness, so an absent and
an empty path both throw), read it, and wrap Json content as a default
export. -/
def loadFromResult (readFile : String → Except Unit String)
    (cached : DenoResolveResult) : Except LoadError LoadResult :=
  match cached.localPath with
  | none => .error .missingArtifact
  | some p =>
    if p = "" then .error .missingArtifact else
    match readFile p with
    | .error _ => .error .readFailure
    | .ok content =>
      let code :=
        if cached.moduleType = some ModuleType.Json then "export default " ++ content
        else content
      let moduleType :=
        if cached.moduleType = some ModuleType.Json then some ModuleType.Js
        else cached.moduleType
      .ok { code := code, moduleType := moduleType }

/-- Synchronous view of one load hook call. -/
inductive LoadOutcome where
  | notHandled
  | pendingResolve (start : ResolveStart)
  | done (r : Except LoadError LoadResult)

/-- DenoLoaderPlugin.load: only jsr, http and https ids are handled; the id is
resolved through denoResolve, and when that is an immediate cache hit the load
completes synchronously via loadFromResult. A started or joined resolution
suspends (pendingResolve); its later settlement feeds loadFromResult. -/
def load (s : EngineState) (id : String) (readFile : String → Except Unit String) :
    LoadOutcome × EngineState :=
  if strStartsWith id "jsr:" || strStartsWith id "http:" || strStartsWith id "https:" then
    match denoResolveStart s id with
    | (.hit r, s1) => (.done (loadFromResult readFile r), s1)
    | (o, s1) => (.pendingResolve o, s1)
  else (.notHandled, s)

/- Embedding of DenoLoaderPlugin.extractPackageAndPath. The source matches the
regular expression

  (?:[^:]+:\/?)?([@]?[^/\@]+\/[^/\@]+|[^/\@]+)(?:@[^/]*)?(?:\/(.+))?

with String.match, which returns the leftmost match under greedy backtracking.
For this particular pattern the search collapses to a deterministic procedure:
inside the optional scheme part, the greedy [^:]+ cannot cross a colon, so it
can only consume the maximal colon-free run, and shorter runs never end right
before a colon; inside the alternation, each greedy [^/\@]+ run that must be
followed by a slash can only be the maximal run, because every shorter run
ends before another class character; and since everything after the capturing
group is optional, no failure ever backtracks into it. What remains is the
attempt order encoded below: for each start position, first the scheme part
with the optional slash consumed, then without it, then no scheme part at all,
and inside the group the scoped alternative before the bare one. -/

/-- The character class of the package name segments. -/
def pkgChar (c : Char) : Bool := !(c == '/') && !(c == '@')

/-- The character class inside the optional scheme part. -/
def notColon (c : Char) : Bool := !(c == ':')

/-- The dot of the path part: any character except a line terminator. -/
def dotChar (c : Char) : Bool :=
  !(c == '\n') && !(c == '\r') && !(c == '\u2028') && !(c == '\u2029')

/-- The scoped alternative after its optional @ sign: a run, a slash, a run. -/
def matchAlt1Core (cs : List Char) : Option (List Char × List Char) :=
  if cs.takeWhile pkgChar = [] then none
  else
    match cs.dropWhile pkgChar with
    | c :: rest2 =>
      if c = '/' then
        if rest2.takeWhile pkgChar = [] then none
        else some (cs.takeWhile pkgChar ++ '/' :: rest2.takeWhile pkgChar,
                   rest2.dropWhile pkgChar)
      else none
    | [] => none

/-- The scoped alternative of the capturing group. When the head is an @ sign
the greedy [@]? consumes it; retrying without it cannot succeed because the
following class excludes @. -/
def matchAlt1 (cs : List Char) : Option (List Char × List Char) :=
  match cs with
  | [] => matchAlt1Core []
  | c :: cs1 =>
    if c = '@' then
      match matchAlt1Core cs1 with
      | some gr => some ('@' :: gr.1, gr.2)
      | none => none
    else matchAlt1Core (c :: cs1)

/-- The bare alternative of the capturing group: one nonempty run. -/
def matchAlt2 (cs : List Char) : Option (List Char × List Char) :=
  if cs.takeWhile pkgChar = [] then none
  else some (cs.takeWhile pkgChar, cs.dropWhile pkgChar)

/-- The capturing group: scoped alternative first, bare alternative second. -/
def matchGroup1 (cs : List Char) : Option (List Char × List Char) :=
  match matchAlt1 cs with
  | some gr => some gr
  | none => matchAlt2 cs

/-- Tries the group at each continuation point in order. -/
def firstGroup1 : List (List Char) → Option (List Char × List Char)
  | [] => none
  | x :: xs =>
    match matchGroup1 x with
    | some gr => some gr
    | none => firstGroup1 xs

/-- The continuation points generated by the optional scheme part at one start
position: with the scheme and its greedy optional slash consumed, with the
scheme but not the slash, and (tried last, by falling back to the group at the
start position itself) without the scheme part. The greedy colon-free run can
only be the maximal one, so at most two scheme-consuming attempts exist. -/
def prefixAttempts (cs : List Char) : List (List Char) :=
  if cs.takeWhile notColon = [] then []
  else
    match cs.dropWhile notColon with
    | c :: afterColon =>
      if c = ':' then
        match afterColon with
        | c2 :: afterSlash => if c2 = '/' then [afterSlash, afterColon] else [afterColon]
        | [] => [afterColon]
      else []
    | [] => []

/-- The optional scheme part followed by the capturing group, at one start
position: the scheme-consuming attempts in order, then the bare position. -/
def matchPrefixedGroup1 (cs : List Char) : Option (List Char × List Char) :=
  match firstGroup1 (prefixAttempts cs) with
  | some gr => some gr
  | none => matchGroup1 cs

/-- The optional version qualifier: an @ sign and then everything up to the
next slash, greedily and deterministically (nothing after it can fail). -/
def skipVersion (cs : List Char) : List Char :=
  match cs with
  | [] => []
  | c :: rest => if c = '@' then rest.dropWhile (fun x => !(x == '/')) else c :: rest

/-- The optional path part: a slash and a nonempty captured run of dots. -/
def matchPath (cs : List Char) : Option (List Char) :=
  match cs with
  | [] => none
  | c :: rest =>
    if c = '/' then
      if rest.takeWhile dotChar = [] then none else some (rest.takeWhile dotChar)
    else none

/-- A full match attempt at one start position: group one and, from the rest,
the version qualifier and the captured path. -/
def matchAt (cs : List Char) : Option (List Char × Option (List Char)) :=
  match matchPrefixedGroup1 cs with
  | some gr => some (gr.1, matchPath (skipVersion gr.2))
  | none => none

/-- The leftmost-match loop of String.match: start positions left to right. -/
def searchMatch : List Char → Option (List Char × Option (List Char))
  | [] => none
  | c :: cs =>
    match matchAt (c :: cs) with
    | some m => some m
    | none => searchMatch cs

/-- DenoLoaderPlugin.extractPackageAndPath: run the regular expression and
return match[1] and match[2], each coerced to null when falsy (absent or the
empty string), or the pair of nulls when nothing matched. -/
def extractPackageAndPath (specifier : String) : Option String × Option String :=
  match searchMatch specifier.data with
  | none => (none, none)
  | some (g1, g2) =>
    let pkgName := if g1 = [] then none else some (String.mk g1)
    let path :=
      match g2 with
      | some p => if p = [] then none else some (String.mk p)
      | none => none
    (pkgName, path)

/- Specification-side view of cacheDenoInfo as a sequence of Map.set writes,
used to reason about the projected cache: the loops of cacheDenoInfo perform
exactly the writes listed by allWrites, in list order. -/

/-- Applies a list of Map.set writes in order. -/
def applyWrites (cache : Cache) (ws : List (String × DenoResolveResult)) : Cache :=
  ws.foldl (fun c kv => alistSet kv.1 kv.2 c) cache

/-- The value of the last write under a key, if any. -/
def findLastVal (k : String) : List (String × DenoResolveResult) → Option DenoResolveResult
  | [] => none
  | kv :: rest =>
    match findLastVal k rest with
    | some v => some v
    | none => if kv.1 = k then some kv.2 else none

/-- The writes performed for one module record: the file-stripped specifier
key, then one key per matching redirect source, all with the same value. -/
def writesOf (redirects : List (String × String)) (details : ModuleInfo) :
    List (String × DenoResolveResult) :=
  match recordEntry details with
  | none => []
  | some (sp, result) =>
    (stripFileScheme sp, result) ::
      redirects.filterMap
        (fun kv => if kv.2 = sp then some (stripFileScheme kv.1, result) else none)

/-- All writes performed by one cacheDenoInfo call, in order. -/
def allWrites (info : DenoInfoJsonV1) : List (String × DenoResolveResult) :=
  (info.modules.map (writesOf info.redirects)).flatten

/- Concrete fixtures used by the witness and counterexample theorems. -/

/-- A fresh engine: both maps empty, as built by the constructor. -/
def s0 : EngineState :=
  { resolveDenoInfoCache := [], resolvePromises := [], nextPromiseId := 0
    denoInfoInvocations := [] }

/-- A report whose modules and redirects arrays are both empty. -/
def emptyInfo : DenoInfoJsonV1 := { redirects := [], modules := [] }

/-- A resolved JavaScript module record for specifier jsr:@x/b. -/
def moduleB : ModuleInfo :=
  { specifier := some "jsr:@x/b", «local» := some "/tmp/b.js"
    mediaType := some DenoMediaType.JavaScript, npm_package := none }

/-- The same module with a different local path, as a later report could
legitimately carry (for example after the artifact cache moved). -/
def moduleB2 : ModuleInfo :=
  { specifier := some "jsr:@x/b", «local» := some "/tmp/b2.js"
    mediaType := some DenoMediaType.JavaScript, npm_package := none }

/-- The cache entry that projecting moduleB produces. -/
def entryB : DenoResolveResult :=
  { localPath := some "/tmp/b.js", redirected := "jsr:@x/b"
    moduleType := some ModuleType.Js }

/-- The cache entry that projecting moduleB2 produces. -/
def entryB2 : DenoResolveResult :=
  { localPath := some "/tmp/b2.js", redirected := "jsr:@x/b"
    moduleType := some ModuleType.Js }

/-- A report in which jsr:b redirects to the resolved module jsr:@x/b. -/
def infoW : DenoInfoJsonV1 :=
  { redirects := [("jsr:b", "jsr:@x/b")], modules := [moduleB] }

/-- A report in which the file URL file:///a.ts redirects to jsr:@x/b. -/
def infoCX : DenoInfoJsonV1 :=
  { redirects := [("file:///a.ts", "jsr:@x/b")], modules := [moduleB] }

/-- A report containing only moduleB. -/
def infoB1 : DenoInfoJsonV1 := { redirects := [], modules := [moduleB] }

/-- A report containing only moduleB2. -/
def infoB2 : DenoInfoJsonV1 := { redirects := [], modules := [moduleB2] }

/-- A resolved TypeScript module record for specifier jsr:@x/a. -/
def moduleA : ModuleInfo :=
  { specifier := some "jsr:@x/a", «local» := some "/tmp/a.ts"
    mediaType := some DenoMediaType.TypeScript, npm_package := none }

/-- The cache entry that projecting moduleA produces. -/
def entryA : DenoResolveResult :=
  { localPath := some "/tmp/a.ts", redirected := "jsr:@x/a"
    moduleType := some ModuleType.Ts }

/-- A report containing only moduleA. -/
def infoA : DenoInfoJsonV1 := { redirects := [], modules := [moduleA] }

/-- The engine state after one successful resolution of jsr:@x/a from s0. -/
def s1W : EngineState :=
  { resolveDenoInfoCache := [("jsr:@x/a", entryA)], resolvePromises := []
    nextPromiseId := 1, denoInfoInvocations := ["jsr:@x/a"] }

/-- An engine whose cache was seeded by projecting infoW into an empty cache. -/
def sW : EngineState :=
  { resolveDenoInfoCache := cacheDenoInfo infoW [], resolvePromises := []
    nextPromiseId := 0, denoInfoInvocations := [] }

/-- An engine whose cache was seeded by projecting infoCX into an empty cache. -/
def sCX : EngineState :=
  { resolveDenoInfoCache := cacheDenoInfo infoCX [], resolvePromises := []
    nextPromiseId := 0, denoInfoInvocations := [] }

/-- A resolved module record for the file URL file:///a.ts itself. -/
def moduleF : ModuleInfo :=
  { specifier := some "file:///a.ts", «local» := some "/a.ts"
    mediaType := some DenoMediaType.TypeScript, npm_package := none }

/-- A report containing only moduleF. -/
def infoF : DenoInfoJsonV1 := { redirects := [], modules := [moduleF] }

/-- A remote entry that the discovery service reported without a local path. -/
def entryNoLocal : DenoResolveResult :=
  { localPath := none, redirected := "https://x/mod.ts", moduleType := some ModuleType.Ts }

/-- An engine whose cache already holds entryNoLocal for its specifier. -/
def sL : EngineState :=
  { resolveDenoInfoCache := [("https://x/mod.ts", entryNoLocal)], resolvePromises := []
    nextPromiseId := 0, denoInfoInvocations := [] }

/-- A cache holding only the remote entry, used as a pre-projection cache. -/
def cacheL : Cache := [("https://x/mod.ts", entryNoLocal)]

/-- A file reader stub that fails on every path; the claims about load that
use it never reach the read. -/
def readFile0 : String → Except Unit String := fun _ => .error ()

/-- The stdout text of a subprocess run that printed an empty report. -/
def emptyReportText : String := "\x7b\"redirects\":\x7b\x7d,\"modules\":[]\x7d"

/-- A subprocess result that exited with code 1 yet printed a well-formed
empty report on stdout. -/
def cmdNonZero : CommandOutput := { code := 1, stdout := emptyReportText, stderr := "" }

/-- JSON.parse restricted to the inputs the fixtures use: it accepts exactly
the well-formed empty report text, as the real parser does. -/
def jsonParseStub : String → Except Unit DenoInfoJsonV1 :=
  fun out => if out = emptyReportText then .ok emptyInfo else .error ()

/- Helper lemmas about the Map model. -/

theorem alistGet_alistSet_self {β : Type} (k : String) (v : β) :
    ∀ m : List (String × β), alistGet k (alistSet k v m) = some v
  | [] => by simp [alistSet, alistGet]
  | kv :: rest => by
    by_cases h : kv.1 = k
    · simp [alistSet, h, alistGet]
    · simp [alistSet, h, alistGet, alistGet_alistSet_self k v rest]

theorem alistGet_alistSet_ne {β : Type} {k k2 : String} (h : k2 ≠ k) (v : β) :
    ∀ m : List (String × β), alistGet k (alistSet k2 v m) = alistGet k m
  | [] => by simp [alistSet, alistGet, h]
  | kv :: rest => by
    by_cases h2 : kv.1 = k2
    · subst h2
      simp [alistSet, alistGet, h]
    · simp [alistSet, h2, alistGet, alistGet_alistSet_ne h v rest]

theorem mem_keys_alistSet {β : Type} (a k : String) (v : β) :
    ∀ m : List (String × β),
      a ∈ (alistSet k v m).map Prod.fst ↔ a = k ∨ a ∈ m.map Prod.fst
  | [] => by simp [alistSet]
  | kv :: rest => by
    by_cases h : kv.1 = k
    · subst h
      simp [alistSet]
    · simp [alistSet, h, mem_keys_alistSet a k v rest]
      tauto

theorem nodup_keys_alistSet {β : Type} (k : String) (v : β) :
    ∀ {m : List (String × β)},
      (m.map Prod.fst).Nodup → ((alistSet k v m).map Prod.fst).Nodup
  | [], _ => by simp [alistSet]
  | kv :: rest, h => by
    simp only [List.map_cons, List.nodup_cons] at h
    by_cases hk : kv.1 = k
    · subst hk
      simpa [alistSet] using h
    · have ih := nodup_keys_alistSet k v h.2
      have hne : kv.1 ∉ (alistSet k v rest).map Prod.fst := by
        intro hmem
        rcases (mem_keys_alistSet kv.1 k v rest).mp hmem with h1 | h2
        · exact hk h1
        · exact h.1 h2
      simp [alistSet, hk, List.nodup_cons, hne, ih]

theorem mem_keys_alistDelete {β : Type} {a k : String} :
    ∀ {m : List (String × β)},
      a ∈ (alistDelete k m).map Prod.fst → a ∈ m.map Prod.fst
  | [], h => by simp [alistDelete] at h
  | kv :: rest, h => by
    by_cases hk : kv.1 = k
    · simp only [alistDelete, hk, if_pos] at h
      simp [h]
    · simp only [alistDelete, hk, if_neg, not_false_iff, List.map_cons, List.mem_cons] at h
      rcases h with h1 | h2
      · simp [h1]
      · simp [mem_keys_alistDelete h2]

theorem nodup_keys_alistDelete {β : Type} (k : String) :
    ∀ {m : List (String × β)},
      (m.map Prod.fst).Nodup → ((alistDelete k m).map Prod.fst).Nodup
  | [], _ => by simp [alistDelete]
  | kv :: rest, h => by
    simp only [List.map_cons, List.nodup_cons] at h
    by_cases hk : kv.1 = k
    · simpa [alistDelete, hk] using h.2
    · have ih := nodup_keys_alistDelete k h.2
      have hne : kv.1 ∉ (alistDelete k rest).map Prod.fst :=
        fun hmem => h.1 (mem_keys_alistDelete hmem)
      simp [alistDelete, hk, List.nodup_cons, hne, ih]

theorem alistGet_eq_none_of_not_mem_keys {β : Type} {k : String} :
    ∀ {m : List (String × β)}, k ∉ m.map Prod.fst → alistGet k m = none
  | [], _ => rfl
  | kv :: rest, h => by
    simp only [List.map_cons, List.mem_cons, not_or] at h
    have hk : kv.1 ≠ k := fun he => h.1 he.symm
    simp [alistGet, hk, alistGet_eq_none_of_not_mem_keys h.2]

theorem alistGet_alistDelete_self {β : Type} (k : String) :
    ∀ {m : List (String × β)},
      (m.map Prod.fst).Nodup → alistGet k (alistDelete k m) = none
  | [], _ => rfl
  | kv :: rest, h => by
    simp only [List.map_cons, List.nodup_cons] at h
    by_cases hk : kv.1 = k
    · subst hk
      simp only [alistDelete, if_pos]
      exact alistGet_eq_none_of_not_mem_keys h.1
    · simp [alistDelete, hk, alistGet, alistGet_alistDelete_self k h.2]

/- Helper lemmas connecting cacheDenoInfo to its write trace. -/

theorem alistGet_applyWrites (k : String) (ws : List (String × DenoResolveResult)) :
    ∀ c : Cache,
      alistGet k (applyWrites c ws) =
        match findLastVal k ws with
        | some v => some v
        | none => alistGet k c := by
  induction ws with
  | nil => intro c; rfl
  | cons kv rest ih =>
    intro c
    have h1 : applyWrites c (kv :: rest) = applyWrites (alistSet kv.1 kv.2 c) rest := rfl
    rw [h1, ih]
    cases hfl : findLastVal k rest with
    | some v => simp [findLastVal, hfl]
    | none =>
      simp only [findLastVal, hfl]
      by_cases hk : kv.1 = k
      · subst hk
        simp [alistGet_alistSet_self]
      · simp [hk, alistGet_alistSet_ne hk]

theorem findLastVal_eq_none_iff (k : String) :
    ∀ ws : List (String × DenoResolveResult),
      findLastVal k ws = none ↔ ∀ w ∈ ws, w.1 ≠ k
  | [] => by simp [findLastVal]
  | kv :: rest => by
    have ih := findLastVal_eq_none_iff k rest
    by_cases hk : kv.1 = k
    · constructor
      · intro h
        exfalso
        cases hfl : findLastVal k rest with
        | some v => simp [findLastVal, hfl] at h
        | none => simp [findLastVal, hfl, hk] at h
      · intro hall
        exact absurd hk (hall kv (List.mem_cons_self kv rest))
    · cases hfl : findLastVal k rest with
      | some v =>
        have hrest : ¬ (∀ w ∈ rest, w.1 ≠ k) := by
          intro hall
          rw [ih.mpr hall] at hfl
          exact Option.noConfusion hfl
        constructor
        · intro h
          simp [findLastVal, hfl] at h
        · intro hall
          exact absurd (fun w hw => hall w (List.mem_cons_of_mem kv hw)) hrest
      | none =>
        have hrest := ih.mp hfl
        constructor
        · intro _ w hw
          rcases List.mem_cons.mp hw with h1 | h2
          · rw [h1]; exact hk
          · exact hrest w h2
        · intro _
          simp [findLastVal, hfl, hk]

theorem findLastVal_mem {k : String} {v : DenoResolveResult} :
    ∀ {ws : List (String × DenoResolveResult)}, findLastVal k ws = some v →
      ∃ w ∈ ws, w.1 = k ∧ w.2 = v
  | [], h => by simp [findLastVal] at h
  | kv :: rest, h => by
    cases hfl : findLastVal k rest with
    | some u =>
      have h2 : findLastVal k (kv :: rest) = some u := by simp [findLastVal, hfl]
      rw [h2] at h
      obtain ⟨w, hw, hwk, hwv⟩ := findLastVal_mem hfl
      exact ⟨w, List.mem_cons_of_mem kv hw, hwk, by rw [hwv]; exact Option.some.inj h⟩
    | none =>
      have h2 : findLastVal k (kv :: rest) = if kv.1 = k then some kv.2 else none := by
        simp [findLastVal, hfl]
      rw [h2] at h
      by_cases hk : kv.1 = k
      · rw [if_pos hk] at h
        exact ⟨kv, List.mem_cons_self kv rest, hk, Option.some.inj h⟩
      · rw [if_neg hk] at h
        exact Option.noConfusion h

theorem findLastVal_all_eq {k : String} {v : DenoResolveResult}
    {ws : List (String × DenoResolveResult)}
    (hex : ∃ w ∈ ws, w.1 = k) (hall : ∀ w ∈ ws, w.1 = k → w.2 = v) :
    findLastVal k ws = some v := by
  cases hfl : findLastVal k ws with
  | none =>
    obtain ⟨w, hw, hk⟩ := hex
    exact absurd hk ((findLastVal_eq_none_iff k ws).mp hfl w hw)
  | some u =>
    obtain ⟨w, hw, hwk, hwv⟩ := findLastVal_mem hfl
    rw [hall w hw hwk] at hwv
    rw [hwv]

theorem findLastVal_isSome_of_exists {k : String}
    {ws : List (String × DenoResolveResult)} (hex : ∃ w ∈ ws, w.1 = k) :
    ∃ v, findLastVal k ws = some v := by
  cases hfl : findLastVal k ws with
  | none =>
    obtain ⟨w, hw, hk⟩ := hex
    exact absurd hk ((findLastVal_eq_none_iff k ws).mp hfl w hw)
  | some u => exact ⟨u, rfl⟩

theorem redirectsFoldl_eq_applyWrites (sp : String) (result : DenoResolveResult)
    (redirects : List (String × String)) :
    ∀ c : Cache,
      redirects.foldl
        (fun c kv => if kv.2 = sp then alistSet (stripFileScheme kv.1) result c else c) c =
      applyWrites c (redirects.filterMap
        (fun kv => if kv.2 = sp then some (stripFileScheme kv.1, result) else none)) := by
  induction redirects with
  | nil => intro c; rfl
  | cons kv rest ih =>
    intro c
    by_cases h : kv.2 = sp
    · simp only [List.foldl_cons, List.filterMap_cons, h, if_pos, if_true]
      rw [ih]
      rfl
    · simp only [List.foldl_cons, List.filterMap_cons, h, if_neg, if_false, ite_false]
      rw [ih]

theorem projectModule_eq_applyWrites (redirects : List (String × String))
    (c : Cache) (d : ModuleInfo) :
    projectModule redirects c d = applyWrites c (writesOf redirects d) := by
  cases h : recordEntry d with
  | none => simp [projectModule, writesOf, h, applyWrites]
  | some spres =>
    obtain ⟨sp, result⟩ := spres
    simp only [projectModule, writesOf, h]
    rw [redirectsFoldl_eq_applyWrites]
    rfl

theorem foldl_projectModule_eq (redirects : List (String × String)) :
    ∀ (mods : List ModuleInfo) (c : Cache),
      mods.foldl (projectModule redirects) c =
        applyWrites c ((mods.map (writesOf redirects)).flatten)
  | [], c => rfl
  | d :: rest, c => by
    simp only [List.foldl_cons, List.map_cons, List.flatten_cons]
    rw [projectModule_eq_applyWrites, foldl_projectModule_eq redirects rest]
    simp [applyWrites, List.foldl_append]

theorem alistGet_cacheDenoInfo (k : String) (info : DenoInfoJsonV1) (c : Cache) :
    alistGet k (cacheDenoInfo info c) =
      match findLastVal k (allWrites info) with
      | some v => some v
      | none => alistGet k c := by
  rw [show cacheDenoInfo info c = applyWrites c (allWrites info) from
    foldl_projectModule_eq info.redirects info.modules c]
  exact alistGet_applyWrites k (allWrites info) c

theorem mem_allWrites {w : String × DenoResolveResult} {info : DenoInfoJsonV1} :
    w ∈ allWrites info ↔ ∃ d ∈ info.modules, w ∈ writesOf info.redirects d := by
  simp only [allWrites, List.mem_flatten, List.mem_map]
  constructor
  · rintro ⟨l, ⟨d, hd, rfl⟩, hw⟩
    exact ⟨d, hd, hw⟩
  · rintro ⟨d, hd, hw⟩
    exact ⟨writesOf info.redirects d, ⟨d, hd, rfl⟩, hw⟩

theorem mem_writesOf {w : String × DenoResolveResult}
    {redirects : List (String × String)} {d : ModuleInfo} :
    w ∈ writesOf redirects d ↔
      ∃ sp result, recordEntry d = some (sp, result) ∧
        (w = (stripFileScheme sp, result) ∨
          ∃ kv ∈ redirects, kv.2 = sp ∧ w = (stripFileScheme kv.1, result)) := by
  cases h : recordEntry d with
  | none => simp [writesOf, h]
  | some spres =>
    obtain ⟨sp, result⟩ := spres
    simp only [writesOf, h, List.mem_cons, List.mem_filterMap]
    constructor
    · rintro (rfl | ⟨kv, hkv, hif⟩)
      · exact ⟨sp, result, rfl, Or.inl rfl⟩
      · by_cases hsp : kv.2 = sp
        · rw [if_pos hsp] at hif
          exact ⟨sp, result, rfl, Or.inr ⟨kv, hkv, hsp, (Option.some.inj hif).symm⟩⟩
        · rw [if_neg hsp] at hif
          exact Option.noConfusion hif
    · rintro ⟨sp2, result2, heq, hcase⟩
      injection heq with heq2
      injection heq2 with ha hb
      subst ha
      subst hb
      rcases hcase with rfl | ⟨kv, hkv, hsp, rfl⟩
      · exact Or.inl rfl
      · exact Or.inr ⟨kv, hkv, by rw [if_pos hsp]⟩

/-- Claim C5: denoResolve fails with the cache-consistency error exactly when
the discovery outcome was a successful report whose projection into the cache
still leaves the triggering specifier without an entry; the settlement never
starts another discovery invocation (the error is surfaced, not retried). -/
theorem C5_cache_consistency (s : EngineState) (specifier : String)
    (outcome : Except DenoInfoError DenoInfoJsonV1) :
    ((denoResolveSettle s specifier outcome).1 = .error .cacheConsistency ↔
      ∃ info, outcome = .ok info ∧
        alistGet specifier (cacheDenoInfo info s.resolveDenoInfoCache) = none) ∧
    (denoResolveSettle s specifier outcome).2.denoInfoInvocations =
      s.denoInfoInvocations := by
  cases outcome with
  | error e =>
    refine ⟨⟨fun h => ?_, fun h => ?_⟩, rfl⟩
    · exact absurd h (by simp [denoResolveSettle])
    · obtain ⟨info, hinfo, _⟩ := h
      exact Except.noConfusion hinfo
  | ok info =>
    cases hget : alistGet specifier (cacheDenoInfo info s.resolveDenoInfoCache) with
    | none =>
      refine ⟨⟨fun _ => ⟨info, rfl, hget⟩, fun _ => ?_⟩, ?_⟩
      · simp [denoResolveSettle, hget]
      · simp [denoResolveSettle, hget]
    | some cached =>
      refine ⟨⟨fun h => ?_, fun h => ?_⟩, ?_⟩
      · exact absurd h (by simp [denoResolveSettle, hget])
      · obtain ⟨info2, hinfo, hnone⟩ := h
        injection hinfo with hinfo2
        rw [← hinfo2] at hnone
        rw [hget] at hnone
        exact Option.noConfusion hnone
      · simp [denoResolveSettle, hget]

/-- Claim C5, instantiated at a concrete settlement: the empty report leaves
the cache without an entry for jsr:@x/a, so the settlement must be the
cache-consistency error and no new invocation is logged. -/
theorem C5_cache_consistency_witness :
    ((denoResolveSettle s0 "jsr:@x/a" (.ok emptyInfo)).1 = .error .cacheConsistency ↔
      ∃ info, (Except.ok emptyInfo : Except DenoInfoError DenoInfoJsonV1) = .ok info ∧
        alistGet "jsr:@x/a" (cacheDenoInfo info s0.resolveDenoInfoCache) = none) ∧
    (denoResolveSettle s0 "jsr:@x/a" (.ok emptyInfo)).2.denoInfoInvocations =
      s0.denoInfoInvocations :=
  C5_cache_consistency s0 "jsr:@x/a" (.ok emptyInfo)

/-- Claim C6: the in-flight map always keeps at most one live entry per
specifier (its keys stay pairwise distinct under every start and settlement
step); a first request for a not-yet-cached, not-in-flight specifier creates
the entry; and the settlement of the computation removes the entry again on
every path, success and failure alike, before the promise settles. -/
theorem C6_inflight_lifecycle (s : EngineState) (specifier : String)
    (hnodup : (s.resolvePromises.map Prod.fst).Nodup) :
    (∀ sp, (((denoResolveStart s sp).2.resolvePromises).map Prod.fst).Nodup) ∧
    (∀ sp outcome,
      (((denoResolveSettle s sp outcome).2.resolvePromises).map Prod.fst).Nodup) ∧
    (alistGet specifier s.resolveDenoInfoCache = none →
      alistGet specifier s.resolvePromises = none →
      (denoResolveStart s specifier).1 = .started s.nextPromiseId ∧
      alistGet specifier (denoResolveStart s specifier).2.resolvePromises =
        some s.nextPromiseId) ∧
    (∀ outcome,
      alistGet specifier (denoResolveSettle s specifier outcome).2.resolvePromises =
        none) := by
  refine ⟨fun sp => ?_, fun sp outcome => ?_, fun hc hf => ?_, fun outcome => ?_⟩
  · cases hc : alistGet sp s.resolveDenoInfoCache with
    | some r => simpa [denoResolveStart, hc] using hnodup
    | none =>
      cases hf : alistGet sp s.resolvePromises with
      | some pid => simpa [denoResolveStart, hc, hf] using hnodup
      | none =>
        simpa [denoResolveStart, hc, hf] using
          nodup_keys_alistSet sp s.nextPromiseId hnodup
  · cases outcome with
    | error e =>
      simpa [denoResolveSettle] using nodup_keys_alistDelete sp hnodup
    | ok info =>
      cases hget : alistGet sp (cacheDenoInfo info s.resolveDenoInfoCache) with
      | none =>
        simpa [denoResolveSettle, hget] using nodup_keys_alistDelete sp hnodup
      | some cached =>
        simpa [denoResolveSettle, hget] using nodup_keys_alistDelete sp hnodup
  · constructor
    · simp [denoResolveStart, hc, hf]
    · simp [denoResolveStart, hc, hf, alistGet_alistSet_self]
  · cases outcome with
    | error e =>
      simpa [denoResolveSettle] using alistGet_alistDelete_self specifier hnodup
    | ok info =>
      cases hget : alistGet specifier (cacheDenoInfo info s.resolveDenoInfoCache) with
      | none =>
        simpa [denoResolveSettle, hget] using alistGet_alistDelete_self specifier hnodup
      | some cached =>
        simpa [denoResolveSettle, hget] using alistGet_alistDelete_self specifier hnodup

/-- Claim C6, instantiated on a fresh engine: settling the computation for
jsr:@x/a with a failed discovery leaves no in-flight entry for it. -/
theorem C6_inflight_lifecycle_witness :
    alistGet "jsr:@x/a"
      (denoResolveSettle s0 "jsr:@x/a" (.error .procFailure)).2.resolvePromises =
      none :=
  (C6_inflight_lifecycle s0 "jsr:@x/a" (by decide)).2.2.2 (.error .procFailure)

/-- Claim C8: when the cache holds an entry without a local path for an id
with a jsr, http or https scheme, the load hook throws the missing-artifact
error and leaves the whole engine state, in particular the cache entry,
untouched. -/
theorem C8_missing_artifact (s : EngineState) (id : String)
    (readFile : String → Except Unit String) (entry : DenoResolveResult)
    (hscheme : (strStartsWith id "jsr:" || strStartsWith id "http:" ||
      strStartsWith id "https:") = true)
    (hc : alistGet id s.resolveDenoInfoCache = some entry)
    (hnp : entry.localPath = none) :
    (load s id readFile).1 = .done (.error .missingArtifact) ∧
    (load s id readFile).2 = s := by
  have hstart : denoResolveStart s id = (.hit entry, s) := by
    simp [denoResolveStart, hc]
  constructor
  · simp [load, hscheme, hstart, loadFromResult, hnp]
  · simp [load, hscheme, hstart]

/-- Claim C8, instantiated: loading https://x/mod.ts, whose cached entry has
no local path, fails with the missing-artifact error and leaves the engine
unchanged. -/
theorem C8_missing_artifact_witness :
    (load sL "https://x/mod.ts" readFile0).1 = .done (.error .missingArtifact) ∧
    (load sL "https://x/mod.ts" readFile0).2 = sL :=
  C8_missing_artifact sL "https://x/mod.ts" readFile0 entryNoLocal
    (by decide) (by decide) (by decide)

/-- Claim C3 as corrected: the claim asserts that denoInfo fails whenever the
process errors, exits non-zero, or prints non-JSON output, but the code never
reads the exit code. This run exits with code 1 while printing a well-formed
report, and denoInfo returns it successfully instead of failing. -/
theorem C3_counterexample :
    cmdNonZero.code ≠ 0 ∧
    denoInfo (.ok cmdNonZero) jsonParseStub = .ok emptyInfo :=
  ⟨by decide, rfl⟩

/-- Claim C3, amended: denoInfo fails exactly when the process invocation
rejects or JSON.parse rejects the stdout text; the exit code is never
examined, so changing it never changes the outcome; and a failed discovery
surfaces through the settlement of denoResolve as a discovery error. -/
theorem C3_denoInfo_errors_amended (commandResult : Except Unit CommandOutput)
    (jsonParse : String → Except Unit DenoInfoJsonV1)
    (s : EngineState) (specifier : String) (e : DenoInfoError) :
    ((∃ err, denoInfo commandResult jsonParse = .error err) ↔
      (commandResult = .error () ∨
        ∃ out, commandResult = .ok out ∧ ∃ u, jsonParse out.stdout = .error u)) ∧
    (∀ out c2,
      denoInfo (.ok { out with code := c2 }) jsonParse =
        denoInfo (.ok out) jsonParse) ∧
    (denoResolveSettle s specifier (.error e)).1 = .error (.discovery e) := by
  refine ⟨?_, fun out c2 => rfl, rfl⟩
  cases commandResult with
  | error u =>
    refine ⟨fun _ => Or.inl rfl, fun _ => ⟨.procFailure, rfl⟩⟩
  | ok out =>
    cases hp : jsonParse out.stdout with
    | error u =>
      refine ⟨fun _ => Or.inr ⟨out, rfl, u, hp⟩, fun _ => ⟨.parseFailure, ?_⟩⟩
      simp [denoInfo, hp]
    | ok info =>
      constructor
      · rintro ⟨err, herr⟩
        rw [show denoInfo (.ok out) jsonParse = .ok info from by simp [denoInfo, hp]]
          at herr
        exact Except.noConfusion herr
      · rintro (h | ⟨out2, hout, u, hu⟩)
        · exact Except.noConfusion h
        · injection hout with hout2
          rw [← hout2, hp] at hu
          exact Except.noConfusion hu

/-- Claim C3 amended, instantiated: the discovery failure of a rejected
process invocation surfaces through the settlement as a discovery error. -/
theorem C3_denoInfo_errors_amended_witness :
    (denoResolveSettle s0 "jsr:@x/a" (.error .procFailure)).1 =
      .error (.discovery .procFailure) :=
  (C3_denoInfo_errors_amended (.ok cmdNonZero) jsonParseStub s0 "jsr:@x/a"
    .procFailure).2.2

/-- When a computation for the specifier is already pending and the cache has
no entry, every further concurrent caller joins that same pending promise and
the state does not change at all. -/
theorem denoResolveStartN_joined (specifier : String) (pid : Nat) :
    ∀ (n : Nat) (s : EngineState),
      alistGet specifier s.resolveDenoInfoCache = none →
      alistGet specifier s.resolvePromises = some pid →
      denoResolveStartN s specifier n = (List.replicate n (.joined pid), s)
  | 0, s, _, _ => rfl
  | Nat.succ m, s, hc, hf => by
    have hstep : denoResolveStart s specifier = (.joined pid, s) := by
      simp [denoResolveStart, hc, hf]
    simp [denoResolveStartN, hstep,
      denoResolveStartN_joined specifier pid m s hc hf, List.replicate_succ]

/-- Claim C1: for a specifier that is in neither the terminal cache nor the
in-flight map, n concurrent denoResolve calls (their synchronous prefixes run
back to back, as the cooperative scheduler serialises them) produce one
started computation and n minus one joiners of the same promise, append
exactly one discovery invocation to the log, and every one of the n callers
receives the unique settlement of that single promise — in particular, when
it settles with a terminal entry, all n callers receive that same entry. -/
theorem C1_concurrent_dedup (s : EngineState) (specifier : String) (n : Nat)
    (outcome : Except DenoInfoError DenoInfoJsonV1) (hn : 2 ≤ n)
    (hc : alistGet specifier s.resolveDenoInfoCache = none)
    (hf : alistGet specifier s.resolvePromises = none) :
    ∃ pid s1,
      denoResolveStartN s specifier n =
        (ResolveStart.started pid :: List.replicate (n - 1) (.joined pid), s1) ∧
      s1.denoInfoInvocations = specifier :: s.denoInfoInvocations ∧
      ∀ o ∈ (denoResolveStartN s specifier n).1,
        deliver (denoResolveSettle s1 specifier outcome).1 o =
          (denoResolveSettle s1 specifier outcome).1 := by
  obtain ⟨m, rfl⟩ : ∃ m, n = m + 1 :=
    ⟨n - 1, (Nat.succ_pred_eq_of_pos (lt_of_lt_of_le (by norm_num) hn)).symm⟩
  have hstep : denoResolveStart s specifier =
      (.started s.nextPromiseId,
        { s with
          resolvePromises := alistSet specifier s.nextPromiseId s.resolvePromises
          nextPromiseId := s.nextPromiseId + 1
          denoInfoInvocations := specifier :: s.denoInfoInvocations }) := by
    simp [denoResolveStart, hc, hf]
  set s1 : EngineState :=
    { s with
      resolvePromises := alistSet specifier s.nextPromiseId s.resolvePromises
      nextPromiseId := s.nextPromiseId + 1
      denoInfoInvocations := specifier :: s.denoInfoInvocations } with hs1
  have hrest : denoResolveStartN s1 specifier m =
      (List.replicate m (.joined s.nextPromiseId), s1) :=
    denoResolveStartN_joined specifier s.nextPromiseId m s1 hc
      (alistGet_alistSet_self specifier s.nextPromiseId s.resolvePromises)
  have hall : denoResolveStartN s specifier (m + 1) =
      (ResolveStart.started s.nextPromiseId ::
        List.replicate m (.joined s.nextPromiseId), s1) := by
    simp [denoResolveStartN, hstep, hrest]
  refine ⟨s.nextPromiseId, s1, by simpa using hall, rfl, ?_⟩
  intro o ho
  rw [hall] at ho
  rcases List.mem_cons.mp ho with rfl | h2
  · rfl
  · rw [List.eq_of_mem_replicate h2]
    rfl

/-- Claim C1, instantiated: two concurrent resolutions of jsr:@x/a on a fresh
engine start one computation and one joiner, log a single invocation, and
both callers receive the settlement of that one promise. -/
theorem C1_concurrent_dedup_witness :
    ∃ pid s1,
      denoResolveStartN s0 "jsr:@x/a" 2 =
        (ResolveStart.started pid :: List.replicate (2 - 1) (.joined pid), s1) ∧
      s1.denoInfoInvocations = "jsr:@x/a" :: s0.denoInfoInvocations ∧
      ∀ o ∈ (denoResolveStartN s0 "jsr:@x/a" 2).1,
        deliver (denoResolveSettle s1 "jsr:@x/a" (.ok infoA)).1 o =
          (denoResolveSettle s1 "jsr:@x/a" (.ok infoA)).1 :=
  C1_concurrent_dedup s0 "jsr:@x/a" 2 (.ok infoA) (by decide) (by decide) (by decide)

/-- Claim C2 as corrected: the claim asserts that resolving any specifier
twice in sequence yields a value-identical entry both times with at most one
discovery invocation across the two calls. On a specifier whose discovery
yields a report that does not cover it, both sequential resolutions throw the
cache-consistency error and the discovery subprocess is invoked twice — the
failed first resolution populates nothing, so the second is not a cache hit. -/
theorem C2_counterexample :
    (denoResolveSeq s0 "jsr:@x/a" (.ok emptyInfo)).1 =
      some (.error .cacheConsistency) ∧
    (denoResolveSeq (denoResolveSeq s0 "jsr:@x/a" (.ok emptyInfo)).2 "jsr:@x/a"
      (.ok emptyInfo)).1 = some (.error .cacheConsistency) ∧
    (denoResolveSeq (denoResolveSeq s0 "jsr:@x/a" (.ok emptyInfo)).2 "jsr:@x/a"
      (.ok emptyInfo)).2.denoInfoInvocations = ["jsr:@x/a", "jsr:@x/a"] :=
  ⟨rfl, rfl, rfl⟩

/-- Claim C2, amended: for every specifier whose first sequential resolution
returns an entry, a second sequential resolution returns the value-identical
entry as a pure cache hit — it changes nothing, in particular it appends no
discovery invocation — and across the two resolutions the discovery
subprocess was invoked at most once. -/
theorem C2_idempotent_amended (s : EngineState) (specifier : String)
    (outcome outcome2 : Except DenoInfoError DenoInfoJsonV1)
    (r : DenoResolveResult) (s1 : EngineState)
    (hres : denoResolveSeq s specifier outcome = (some (.ok r), s1)) :
    denoResolveSeq s1 specifier outcome2 = (some (.ok r), s1) ∧
    s1.denoInfoInvocations.length ≤ s.denoInfoInvocations.length + 1 := by
  cases hc : alistGet specifier s.resolveDenoInfoCache with
  | some cached =>
    have hseq : denoResolveSeq s specifier outcome = (some (.ok cached), s) := by
      simp [denoResolveSeq, denoResolveStart, hc]
    rw [hseq] at hres
    injection hres with h1 h2
    injection Option.some.inj h1 with h3
    rw [← h2, ← h3]
    exact ⟨by simp [denoResolveSeq, denoResolveStart, hc], by omega⟩
  | none =>
    cases hf : alistGet specifier s.resolvePromises with
    | some pid =>
      have hseq : denoResolveSeq s specifier outcome = (none, s) := by
        simp [denoResolveSeq, denoResolveStart, hc, hf]
      rw [hseq] at hres
      injection hres with h1 _
      exact Option.noConfusion h1
    | none =>
      have hstep : denoResolveStart s specifier =
          (.started s.nextPromiseId,
            { s with
              resolvePromises := alistSet specifier s.nextPromiseId s.resolvePromises
              nextPromiseId := s.nextPromiseId + 1
              denoInfoInvocations := specifier :: s.denoInfoInvocations }) := by
        simp [denoResolveStart, hc, hf]
      set s2 : EngineState :=
        { s with
          resolvePromises := alistSet specifier s.nextPromiseId s.resolvePromises
          nextPromiseId := s.nextPromiseId + 1
          denoInfoInvocations := specifier :: s.denoInfoInvocations } with hs2
      have hseq : denoResolveSeq s specifier outcome =
          (some (denoResolveSettle s2 specifier outcome).1,
            (denoResolveSettle s2 specifier outcome).2) := by
        simp [denoResolveSeq, hstep]
      rw [hseq] at hres
      injection hres with h1 h2
      have h3 := Option.some.inj h1
      cases outcome with
      | error e => exact Except.noConfusion h3
      | ok info =>
        cases hget : alistGet specifier
            (cacheDenoInfo info s2.resolveDenoInfoCache) with
        | none =>
          rw [show (denoResolveSettle s2 specifier (.ok info)).1 =
            .error .cacheConsistency from by simp [denoResolveSettle, hget]] at h3
          exact Except.noConfusion h3
        | some cached =>
          rw [show (denoResolveSettle s2 specifier (.ok info)).1 = .ok cached from by
            simp [denoResolveSettle, hget]] at h3
          have hr : cached = r := Except.ok.inj h3
          have hstate : (denoResolveSettle s2 specifier (.ok info)).2 =
              { s2 with
                resolveDenoInfoCache := cacheDenoInfo info s2.resolveDenoInfoCache
                resolvePromises := alistDelete specifier s2.resolvePromises } := by
            simp [denoResolveSettle, hget]
          rw [hstate] at h2
          have hcache1 : alistGet specifier s1.resolveDenoInfoCache = some r := by
            rw [← h2]
            rw [hget]
            rw [hr]
          constructor
          · simp [denoResolveSeq, denoResolveStart, hcache1]
          · rw [← h2]
            simp

/-- Claim C2 amended, instantiated: after the successful first resolution of
jsr:@x/a, the second resolution is a pure cache hit on the unchanged state and
the invocation log grew by at most one entry. -/
theorem C2_idempotent_amended_witness :
    denoResolveSeq s1W "jsr:@x/a" (.ok infoA) = (some (.ok entryA), s1W) ∧
    s1W.denoInfoInvocations.length ≤ s0.denoInfoInvocations.length + 1 :=
  C2_idempotent_amended s0 "jsr:@x/a" (.ok infoA) (.ok infoA) entryA s1W rfl

/-- Claim C4 as corrected (counterexample): in a report where the file URL
file:///a.ts redirects to the resolved module jsr:@x/b, the projection stores
the alias entry only under the stripped key /a.ts, so a subsequent resolution
of file:///a.ts misses the cache and starts a separate discovery invocation
instead of returning the projected entry. -/
theorem C4_counterexample :
    alistGet "file:///a.ts" (cacheDenoInfo infoCX []) = none ∧
    (denoResolveStart sCX "file:///a.ts").1 = .started 0 ∧
    (denoResolveStart sCX "file:///a.ts").2.denoInfoInvocations =
      ["file:///a.ts"] :=
  ⟨rfl, rfl, rfl⟩

/-- Claim C4, amended: for every report containing a module record with
specifier B, local path P and a media type, and a redirect from A to B, where
A does not contain the substring file:// (so that prefix stripping leaves it
unchanged) and no other projected record or redirect alias lands on the key A
with a different value, a resolution of A issued after the projection is an
immediate cache hit returning the entry with local path P, redirected
specifier B and the mapped module kind, leaving the state untouched — in
particular, it performs no separate discovery invocation for A. -/
theorem C4_redirect_projection_amended (info : DenoInfoJsonV1) (c : Cache)
    (s : EngineState) (d : ModuleInfo) (A B P : String) (mt : DenoMediaType)
    (hd : d ∈ info.modules)
    (hspec : d.specifier = some B) (hloc : d.«local» = some P)
    (hmt : d.mediaType = some mt) (hnpm : d.npm_package = none)
    (hr : (A, B) ∈ info.redirects)
    (hA : stripFileScheme A = A)
    (huniq : ∀ d2 ∈ info.modules, ∀ sp2 res2, recordEntry d2 = some (sp2, res2) →
      (stripFileScheme sp2 = A →
        res2 = { localPath := some P, redirected := B
                 moduleType := some (mapMediaType mt) }) ∧
      (∀ kv ∈ info.redirects, kv.2 = sp2 → stripFileScheme kv.1 = A →
        res2 = { localPath := some P, redirected := B
                 moduleType := some (mapMediaType mt) }))
    (hcache : s.resolveDenoInfoCache = cacheDenoInfo info c) :
    denoResolveStart s A =
      (.hit { localPath := some P, redirected := B
              moduleType := some (mapMediaType mt) }, s) := by
  set result : DenoResolveResult :=
    { localPath := some P, redirected := B, moduleType := some (mapMediaType mt) }
    with hresult
  have hrec : recordEntry d = some (B, result) := by
    simp [recordEntry, hspec, hmt, hnpm, hloc, hresult]
  have hwmem : ((stripFileScheme A, result) : String × DenoResolveResult) ∈
      allWrites info :=
    mem_allWrites.mpr ⟨d, hd, mem_writesOf.mpr
      ⟨B, result, hrec, Or.inr ⟨(A, B), hr, rfl, rfl⟩⟩⟩
  have hex : ∃ w ∈ allWrites info, w.1 = A :=
    ⟨(stripFileScheme A, result), hwmem, hA⟩
  have hall : ∀ w ∈ allWrites info, w.1 = A → w.2 = result := by
    intro w hw hkey
    obtain ⟨d2, hd2, hw2⟩ := mem_allWrites.mp hw
    obtain ⟨sp2, res2, hrec2, hcase⟩ := mem_writesOf.mp hw2
    rcases hcase with rfl | ⟨kv, hkv, hkv2, rfl⟩
    · exact (huniq d2 hd2 sp2 res2 hrec2).1 hkey
    · exact (huniq d2 hd2 sp2 res2 hrec2).2 kv hkv hkv2 hkey
  have hget : alistGet A (cacheDenoInfo info c) = some result := by
    rw [alistGet_cacheDenoInfo, findLastVal_all_eq hex hall]
  simp [denoResolveStart, hcache, hget]

/-- Claim C4 amended, instantiated: after projecting the report in which
jsr:b redirects to the resolved module jsr:@x/b, resolving jsr:b is a cache
hit on the projected entry with the state unchanged. -/
theorem C4_redirect_projection_amended_witness :
    denoResolveStart sW "jsr:b" =
      (.hit { localPath := some "/tmp/b.js", redirected := "jsr:@x/b"
              moduleType := some (mapMediaType DenoMediaType.JavaScript) }, sW) :=
  C4_redirect_projection_amended infoW [] sW moduleB "jsr:b" "jsr:@x/b"
    "/tmp/b.js" DenoMediaType.JavaScript (by decide) rfl rfl rfl rfl
    (by decide) (by decide)
    (by
      intro d2 hd2 sp2 res2 hrec
      have hd2e : d2 = moduleB := by simpa [infoW] using hd2
      subst hd2e
      rw [show recordEntry moduleB = some ("jsr:@x/b", entryB) from rfl] at hrec
      injection hrec with h2
      injection h2 with ha hb
      subst ha
      subst hb
      constructor
      · intro h
        exact absurd h (by decide)
      · intro kv hkv h1 h2
        rfl)
    rfl

/-- Claim C7 as corrected (counterexample): the resolution cache is not
write-once. Projecting a report that mentions jsr:@x/b stores one entry;
projecting a later report that mentions the same specifier with a different
local path replaces that entry with a different value. -/
theorem C7_counterexample :
    alistGet "jsr:@x/b" (cacheDenoInfo infoB1 []) = some entryB ∧
    alistGet "jsr:@x/b" (cacheDenoInfo infoB2 (cacheDenoInfo infoB1 [])) =
      some entryB2 ∧
    entryB2 ≠ entryB :=
  ⟨rfl, rfl, by decide⟩

/-- Claim C7, amended: once present, a cache entry is never removed — every
later projection leaves some entry under the key — and it is replaced only
when a later report projects a write onto the same (file-stripped) key; a
projection none of whose records or redirect aliases lands on the key leaves
the entry exactly as it was. No other operation writes the cache at all. -/
theorem C7_write_once_amended (info : DenoInfoJsonV1) (c : Cache) (k : String)
    (e : DenoResolveResult) (he : alistGet k c = some e) :
    (∃ e2, alistGet k (cacheDenoInfo info c) = some e2) ∧
    ((∀ d ∈ info.modules, ∀ sp res, recordEntry d = some (sp, res) →
        stripFileScheme sp ≠ k ∧
        ∀ kv ∈ info.redirects, kv.2 = sp → stripFileScheme kv.1 ≠ k) →
      alistGet k (cacheDenoInfo info c) = some e) := by
  constructor
  · cases hfl : findLastVal k (allWrites info) with
    | some v => exact ⟨v, by rw [alistGet_cacheDenoInfo, hfl]⟩
    | none =>
      refine ⟨e, ?_⟩
      rw [alistGet_cacheDenoInfo, hfl]
      exact he
  · intro hnone
    have hkeys : ∀ w ∈ allWrites info, w.1 ≠ k := by
      intro w hw
      obtain ⟨d2, hd2, hw2⟩ := mem_allWrites.mp hw
      obtain ⟨sp2, res2, hrec2, hcase⟩ := mem_writesOf.mp hw2
      rcases hcase with rfl | ⟨kv, hkv, hkv2, rfl⟩
      · exact (hnone d2 hd2 sp2 res2 hrec2).1
      · exact (hnone d2 hd2 sp2 res2 hrec2).2 kv hkv hkv2
    rw [alistGet_cacheDenoInfo,
      (findLastVal_eq_none_iff k (allWrites info)).mpr hkeys]
    exact he

/-- Claim C7 amended, instantiated: projecting a report about jsr:@x/b does
not disturb the unrelated existing entry for https://x/mod.ts. -/
theorem C7_write_once_amended_witness :
    (∃ e2, alistGet "https://x/mod.ts" (cacheDenoInfo infoB1 cacheL) = some e2) ∧
    ((∀ d ∈ infoB1.modules, ∀ sp res, recordEntry d = some (sp, res) →
        stripFileScheme sp ≠ "https://x/mod.ts" ∧
        ∀ kv ∈ infoB1.redirects, kv.2 = sp →
          stripFileScheme kv.1 ≠ "https://x/mod.ts") →
      alistGet "https://x/mod.ts" (cacheDenoInfo infoB1 cacheL) =
        some entryNoLocal) :=
  C7_write_once_amended infoB1 cacheL "https://x/mod.ts" entryNoLocal (by decide)

/-- Stripping the file scheme from a string that starts with file:// shortens
it, so the stripped string is never the original one. -/
theorem stripFileScheme_ne_self {sp : String}
    (h : strStartsWith sp "file://" = true) : stripFileScheme sp ≠ sp := by
  intro heq
  have htake : sp.data.take ("file://".data).length = "file://".data := by
    simpa [strStartsWith] using h
  have hlen7 : ("file://".data).length = 7 := by decide
  have hge : 7 ≤ sp.data.length := by
    have hlt := congrArg List.length htake
    rw [List.length_take, hlen7] at hlt
    omega
  have hrem : removeFirstOcc ("file://".data) sp.data =
      sp.data.drop ("file://".data).length := by
    cases hd : sp.data with
    | nil =>
      rw [hd] at htake
      simp only [List.take_nil] at htake
      exact absurd htake (by decide)
    | cons c cs =>
      rw [hd] at htake
      simp only [removeFirstOcc]
      rw [if_pos htake]
  have hdata := congrArg String.data heq
  rw [show (stripFileScheme sp).data =
    removeFirstOcc ("file://".data) sp.data from rfl, hrem] at hdata
  have hlen := congrArg List.length hdata
  rw [List.length_drop] at hlen
  omega

/-- Claim C10: for a specifier that starts with file:// and has no terminal
cache entry under that exact string, a discovery settlement whose report does
contain a module record for the specifier itself (and whose other records and
aliases do not happen to land on the unstripped key) still rejects with the
cache-consistency error: the projection stores the entry under the stripped
key, which differs from the specifier, so the post-projection re-read of the
unstripped key finds nothing. -/
theorem C10_file_scheme_mismatch (s : EngineState) (specifier : String)
    (info : DenoInfoJsonV1)
    (hpre : strStartsWith specifier "file://" = true)
    (hc : alistGet specifier s.resolveDenoInfoCache = none)
    (hm : ∃ d ∈ info.modules, ∃ res, recordEntry d = some (specifier, res))
    (hother : ∀ d ∈ info.modules, ∀ sp res, recordEntry d = some (sp, res) →
      stripFileScheme sp ≠ specifier ∧
      ∀ kv ∈ info.redirects, kv.2 = sp → stripFileScheme kv.1 ≠ specifier) :
    stripFileScheme specifier ≠ specifier ∧
    (∃ e, alistGet (stripFileScheme specifier)
        (cacheDenoInfo info s.resolveDenoInfoCache) = some e) ∧
    (denoResolveSettle s specifier (.ok info)).1 = .error .cacheConsistency := by
  refine ⟨stripFileScheme_ne_self hpre, ?_, ?_⟩
  · obtain ⟨d, hd, res, hrec⟩ := hm
    have hwmem : ((stripFileScheme specifier, res) : String × DenoResolveResult) ∈
        allWrites info :=
      mem_allWrites.mpr ⟨d, hd, mem_writesOf.mpr ⟨specifier, res, hrec, Or.inl rfl⟩⟩
    obtain ⟨v, hv⟩ := findLastVal_isSome_of_exists ⟨_, hwmem, rfl⟩
    exact ⟨v, by rw [alistGet_cacheDenoInfo, hv]⟩
  · have hkeys : ∀ w ∈ allWrites info, w.1 ≠ specifier := by
      intro w hw
      obtain ⟨d2, hd2, hw2⟩ := mem_allWrites.mp hw
      obtain ⟨sp2, res2, hrec2, hcase⟩ := mem_writesOf.mp hw2
      rcases hcase with rfl | ⟨kv, hkv, hkv2, rfl⟩
      · exact (hother d2 hd2 sp2 res2 hrec2).1
      · exact (hother d2 hd2 sp2 res2 hrec2).2 kv hkv hkv2
    have hnone : alistGet specifier
        (cacheDenoInfo info s.resolveDenoInfoCache) = none := by
      rw [alistGet_cacheDenoInfo,
        (findLastVal_eq_none_iff specifier (allWrites info)).mpr hkeys]
      exact hc
    simp [denoResolveSettle, hnone]

/-- Claim C10, instantiated: resolving file:///a.ts on a fresh engine with a
report that contains a module record for file:///a.ts itself still ends in
the cache-consistency error, while the entry sits under the stripped key. -/
theorem C10_file_scheme_mismatch_witness :
    stripFileScheme "file:///a.ts" ≠ "file:///a.ts" ∧
    (∃ e, alistGet (stripFileScheme "file:///a.ts")
        (cacheDenoInfo infoF s0.resolveDenoInfoCache) = some e) ∧
    (denoResolveSettle s0 "file:///a.ts" (.ok infoF)).1 =
      .error .cacheConsistency :=
  C10_file_scheme_mismatch s0 "file:///a.ts" infoF (by decide) (by decide)
    ⟨moduleF, by decide,
      { localPath := some "/a.ts", redirected := "file:///a.ts"
        moduleType := some ModuleType.Ts }, rfl⟩
    (by
      intro d2 hd2 sp2 res2 hrec
      have hd2e : d2 = moduleF := by simpa [infoF] using hd2
      subst hd2e
      rw [show recordEntry moduleF =
        some ("file:///a.ts",
          { localPath := some "/a.ts", redirected := "file:///a.ts"
            moduleType := some ModuleType.Ts }) from rfl] at hrec
      injection hrec with h2
      injection h2 with ha hb
      subst ha
      subst hb
      refine ⟨by decide, ?_⟩
      intro kv hkv
      simp [infoF] at hkv)

/- Helper lemmas about the regular-expression engine of
extractPackageAndPath. A string matches somewhere exactly when it contains a
character outside the class of slashes and @ signs; a successful match always
captures a nonempty group one. -/

theorem pkgChar_of_ne {c : Char} (h1 : c ≠ '/') (h2 : c ≠ '@') :
    pkgChar c = true := by
  simp only [pkgChar, Bool.and_eq_true, Bool.not_eq_true', beq_eq_false_iff_ne]
  exact ⟨h1, h2⟩

theorem not_pkgChar_of_special {c : Char} (h : c = '/' ∨ c = '@') :
    pkgChar c = false := by
  rcases h with rfl | rfl <;> decide

theorem notColon_of_special {c : Char} (h : c = '/' ∨ c = '@') :
    notColon c = true := by
  rcases h with rfl | rfl <;> decide

theorem takeWhile_pkgChar_nil {cs : List Char}
    (hall : ∀ c ∈ cs, c = '/' ∨ c = '@') : cs.takeWhile pkgChar = [] := by
  cases cs with
  | nil => rfl
  | cons c cs1 =>
    simp [List.takeWhile_cons,
      not_pkgChar_of_special (hall c (List.mem_cons_self c cs1))]

theorem matchAlt1Core_none_of_specials {cs : List Char}
    (hall : ∀ c ∈ cs, c = '/' ∨ c = '@') : matchAlt1Core cs = none := by
  simp [matchAlt1Core, takeWhile_pkgChar_nil hall]

theorem matchAlt1_cons (c : Char) (cs1 : List Char) :
    matchAlt1 (c :: cs1) =
      if c = '@' then
        match matchAlt1Core cs1 with
        | some gr => some ('@' :: gr.1, gr.2)
        | none => none
      else matchAlt1Core (c :: cs1) := rfl

theorem matchGroup1_none_of_specials {cs : List Char}
    (hall : ∀ c ∈ cs, c = '/' ∨ c = '@') : matchGroup1 cs = none := by
  have halt2 : matchAlt2 cs = none := by
    simp [matchAlt2, takeWhile_pkgChar_nil hall]
  have halt1 : matchAlt1 cs = none := by
    cases cs with
    | nil => rfl
    | cons c cs1 =>
      rw [matchAlt1_cons]
      by_cases hc : c = '@'
      · rw [if_pos hc,
          matchAlt1Core_none_of_specials
            (fun c2 hc2 => hall c2 (List.mem_cons_of_mem c hc2))]
      · rw [if_neg hc, matchAlt1Core_none_of_specials hall]
  simp [matchGroup1, halt1, halt2]

theorem dropWhile_notColon_nil {cs : List Char}
    (hall : ∀ c ∈ cs, c = '/' ∨ c = '@') : cs.dropWhile notColon = [] := by
  induction cs with
  | nil => rfl
  | cons c cs1 ih =>
    rw [List.dropWhile_cons]
    simp [notColon_of_special (hall c (List.mem_cons_self c cs1)),
      ih (fun c2 hc2 => hall c2 (List.mem_cons_of_mem c hc2))]

theorem prefixAttempts_nil_of_specials {cs : List Char}
    (hall : ∀ c ∈ cs, c = '/' ∨ c = '@') : prefixAttempts cs = [] := by
  unfold prefixAttempts
  rw [dropWhile_notColon_nil hall]
  by_cases h : cs.takeWhile notColon = []
  · rw [if_pos h]
  · rw [if_neg h]

theorem matchAt_none_of_specials {cs : List Char}
    (hall : ∀ c ∈ cs, c = '/' ∨ c = '@') : matchAt cs = none := by
  have h1 : matchPrefixedGroup1 cs = none := by
    rw [matchPrefixedGroup1, prefixAttempts_nil_of_specials hall]
    simp [firstGroup1, matchGroup1_none_of_specials hall]
  simp [matchAt, h1]

theorem searchMatch_none_of_specials {cs : List Char}
    (hall : ∀ c ∈ cs, c = '/' ∨ c = '@') : searchMatch cs = none := by
  induction cs with
  | nil => rfl
  | cons c cs1 ih =>
    simp [searchMatch, matchAt_none_of_specials hall,
      ih (fun c2 hc2 => hall c2 (List.mem_cons_of_mem c hc2))]

theorem matchAlt1Core_ne_nil {cs g rest : List Char}
    (h : matchAlt1Core cs = some (g, rest)) : g ≠ [] := by
  unfold matchAlt1Core at h
  by_cases h1 : cs.takeWhile pkgChar = []
  · rw [if_pos h1] at h
    exact Option.noConfusion h
  · rw [if_neg h1] at h
    cases hdrop : cs.dropWhile pkgChar with
    | nil =>
      rw [hdrop] at h
      exact Option.noConfusion h
    | cons c rest2 =>
      rw [hdrop] at h
      dsimp only at h
      by_cases hc : c = '/'
      · rw [if_pos hc] at h
        by_cases h2 : rest2.takeWhile pkgChar = []
        · rw [if_pos h2] at h
          exact Option.noConfusion h
        · rw [if_neg h2] at h
          injection h with h3
          injection h3 with hg hrest
          rw [← hg]
          intro hnil
          rcases List.append_eq_nil.mp hnil with ⟨_, h5⟩
          exact List.noConfusion h5
      · rw [if_neg hc] at h
        exact Option.noConfusion h

theorem matchAlt1_ne_nil {cs g rest : List Char}
    (h : matchAlt1 cs = some (g, rest)) : g ≠ [] := by
  cases cs with
  | nil => exact matchAlt1Core_ne_nil h
  | cons c cs1 =>
    rw [matchAlt1_cons] at h
    by_cases hc : c = '@'
    · rw [if_pos hc] at h
      cases hcore : matchAlt1Core cs1 with
      | none =>
        rw [hcore] at h
        exact Option.noConfusion h
      | some gr =>
        rw [hcore] at h
        injection h with h3
        injection h3 with hg hrest
        rw [← hg]
        exact List.cons_ne_nil '@' gr.1
    · rw [if_neg hc] at h
      exact matchAlt1Core_ne_nil h

theorem matchAlt2_ne_nil {cs g rest : List Char}
    (h : matchAlt2 cs = some (g, rest)) : g ≠ [] := by
  unfold matchAlt2 at h
  by_cases h1 : cs.takeWhile pkgChar = []
  · rw [if_pos h1] at h
    exact Option.noConfusion h
  · rw [if_neg h1] at h
    injection h with h3
    injection h3 with hg hrest
    rw [← hg]
    exact h1

theorem matchGroup1_ne_nil {cs g rest : List Char}
    (h : matchGroup1 cs = some (g, rest)) : g ≠ [] := by
  unfold matchGroup1 at h
  cases ha : matchAlt1 cs with
  | some gr =>
    obtain ⟨g1, r1⟩ := gr
    rw [ha] at h
    injection h with h3
    injection h3 with hg hrest
    rw [← hg]
    exact matchAlt1_ne_nil ha
  | none =>
    rw [ha] at h
    exact matchAlt2_ne_nil h

theorem firstGroup1_ne_nil {l : List (List Char)} {g rest : List Char}
    (h : firstGroup1 l = some (g, rest)) : g ≠ [] := by
  induction l with
  | nil => exact Option.noConfusion h
  | cons x xs ih =>
    unfold firstGroup1 at h
    cases hx : matchGroup1 x with
    | some gr =>
      obtain ⟨g1, r1⟩ := gr
      rw [hx] at h
      injection h with h3
      injection h3 with hg hrest
      rw [← hg]
      exact matchGroup1_ne_nil hx
    | none =>
      rw [hx] at h
      exact ih h

theorem matchPrefixedGroup1_ne_nil {cs g rest : List Char}
    (h : matchPrefixedGroup1 cs = some (g, rest)) : g ≠ [] := by
  unfold matchPrefixedGroup1 at h
  cases hf : firstGroup1 (prefixAttempts cs) with
  | some gr =>
    obtain ⟨g1, r1⟩ := gr
    rw [hf] at h
    injection h with h3
    injection h3 with hg hrest
    rw [← hg]
    exact firstGroup1_ne_nil hf
  | none =>
    rw [hf] at h
    exact matchGroup1_ne_nil h

theorem matchAt_ne_nil {cs g : List Char} {p : Option (List Char)}
    (h : matchAt cs = some (g, p)) : g ≠ [] := by
  unfold matchAt at h
  cases hm : matchPrefixedGroup1 cs with
  | none =>
    rw [hm] at h
    exact Option.noConfusion h
  | some gr =>
    obtain ⟨g1, r1⟩ := gr
    rw [hm] at h
    injection h with h3
    injection h3 with hg hp
    rw [← hg]
    exact matchPrefixedGroup1_ne_nil hm

theorem searchMatch_ne_nil {cs g : List Char} {p : Option (List Char)} :
    searchMatch cs = some (g, p) → g ≠ [] := by
  induction cs with
  | nil => exact fun h => Option.noConfusion h
  | cons c cs1 ih =>
    intro h
    unfold searchMatch at h
    cases hm : matchAt (c :: cs1) with
    | some m =>
      obtain ⟨g1, p1⟩ := m
      rw [hm] at h
      injection h with h3
      injection h3 with hg hp
      rw [← hg]
      exact matchAt_ne_nil hm
    | none =>
      rw [hm] at h
      exact ih h

theorem matchAlt2_isSome_of_pkgChar {c : Char} (cs1 : List Char)
    (hc : pkgChar c = true) : ∃ gr, matchAlt2 (c :: cs1) = some gr := by
  have h1 : (c :: cs1).takeWhile pkgChar = c :: cs1.takeWhile pkgChar := by
    simp [List.takeWhile_cons, hc]
  have hne : (c :: cs1).takeWhile pkgChar ≠ [] := by
    rw [h1]
    exact List.cons_ne_nil c _
  exact ⟨_, by unfold matchAlt2; rw [if_neg hne]⟩

theorem matchGroup1_isSome_of_pkgChar {c : Char} (cs1 : List Char)
    (hc : pkgChar c = true) : ∃ gr, matchGroup1 (c :: cs1) = some gr := by
  unfold matchGroup1
  cases ha : matchAlt1 (c :: cs1) with
  | some gr => exact ⟨gr, rfl⟩
  | none =>
    obtain ⟨gr, hgr⟩ := matchAlt2_isSome_of_pkgChar cs1 hc
    exact ⟨gr, by rw [hgr]⟩

theorem matchPrefixedGroup1_isSome_of_group {cs : List Char}
    (h : ∃ gr, matchGroup1 cs = some gr) :
    ∃ gr, matchPrefixedGroup1 cs = some gr := by
  unfold matchPrefixedGroup1
  cases hf : firstGroup1 (prefixAttempts cs) with
  | some gr => exact ⟨gr, rfl⟩
  | none =>
    obtain ⟨gr, hgr⟩ := h
    exact ⟨gr, by rw [hgr]⟩

theorem searchMatch_isSome_of_exists :
    ∀ {cs : List Char}, (∃ c ∈ cs, pkgChar c = true) →
      ∃ m, searchMatch cs = some m
  | [], h => absurd h (by simp)
  | c :: cs1, h => by
    unfold searchMatch
    cases hm : matchAt (c :: cs1) with
    | some m => exact ⟨m, rfl⟩
    | none =>
      cases hcb : pkgChar c with
      | true =>
        obtain ⟨gr, hgr⟩ :=
          matchPrefixedGroup1_isSome_of_group (matchGroup1_isSome_of_pkgChar cs1 hcb)
        unfold matchAt at hm
        rw [hgr] at hm
        exact absurd hm (by simp)
      | false =>
        obtain ⟨c2, hc2, hc2p⟩ := h
        rcases List.mem_cons.mp hc2 with rfl | h2
        · rw [hc2p] at hcb
          exact Bool.noConfusion hcb
        · exact searchMatch_isSome_of_exists ⟨c2, h2, hc2p⟩

/-- Claim C9: extractPackageAndPath splits npm:@scope/pkg@1.2.3/sub/path into
the scoped package name and the subpath, returns lodash with no subpath for
npm:lodash, and returns the pair of nulls exactly for the inputs with no
extractable package shape — characterised precisely as the strings whose
every character is a slash or an @ sign (on every other input the expression
finds a match and captures a nonempty package name). -/
theorem C9_extract_package_and_path :
    extractPackageAndPath "npm:@scope/pkg@1.2.3/sub/path" =
      (some "@scope/pkg", some "sub/path") ∧
    extractPackageAndPath "npm:lodash" = (some "lodash", none) ∧
    ∀ s : String,
      extractPackageAndPath s = (none, none) ↔
        ∀ c ∈ s.data, c = '/' ∨ c = '@' := by
  refine ⟨by decide, by decide, fun s => ⟨fun h => ?_, fun hall => ?_⟩⟩
  · by_contra hnot
    push_neg at hnot
    obtain ⟨c, hc, hcp⟩ := hnot
    obtain ⟨m, hm⟩ :=
      searchMatch_isSome_of_exists ⟨c, hc, pkgChar_of_ne hcp.1 hcp.2⟩
    obtain ⟨g1, g2⟩ := m
    have hg1 := searchMatch_ne_nil hm
    unfold extractPackageAndPath at h
    rw [hm] at h
    simp [hg1] at h
  · unfold extractPackageAndPath
    rw [searchMatch_none_of_specials hall]

/-- Claim C9, instantiated on the no-shape side of the characterisation: a
string of slashes and @ signs only yields the pair of nulls. -/
theorem C9_extract_package_and_path_witness :
    extractPackageAndPath "@@//" = (none, none) :=
  (C9_extract_package_and_path.2.2 "@@//").mpr (by decide)

end RolldownDenoLoader
